import Mathlib

/-!
Shallow embedding of the go-check-certs repository (package pkg and the
check-certs entry point), for checking its natural-language specification.

Time is modelled as an integer number of nanoseconds since the Unix epoch,
matching the resolution of the Go time package. Go computes the remaining
lifetime of a certificate as the float64 value cert.NotAfter.Sub(timeNow).Hours()
and converts it with int64(...), which truncates toward zero; in exact integer
arithmetic this conversion is Int.tdiv of the nanosecond difference by the
number of nanoseconds per hour (float rounding at these magnitudes is ignored).
timeNow.AddDate(0, 0, warnDays) is modelled as adding warnDays whole days of
86400 seconds on the linear time axis.
-/

namespace CheckCerts

def nsPerHour : Int := 3600000000000

def nsPerDay : Int := 24 * nsPerHour

/-- Signature algorithms appearing in the sunsetSigAlgs table of check.go,
plus a catch-all constructor for every other algorithm (absent from the table). -/
inductive SignatureAlgorithm where
  | MD2WithRSA
  | MD5WithRSA
  | SHA1WithRSA
  | DSAWithSHA1
  | ECDSAWithSHA1
  | UnknownSigAlg
deriving DecidableEq, Repr

structure sigAlgSunset where
  name : String
  sunsetsAt : Int
deriving DecidableEq, Repr

/-- Nanoseconds since the epoch of 2017-01-01T00:00:00 UTC, the sunset date
used for SHA1/DSA/ECDSA-with-SHA1 in check.go. -/
def sunset2017 : Int := 1483228800000000000

/-- The sunsetSigAlgs table of check.go. The MD2/MD5 entries use time.Now()
evaluated at process initialization, passed here as the initTime parameter. -/
def sunsetSigAlgs (initTime : Int) : SignatureAlgorithm → Option sigAlgSunset
  | .MD2WithRSA => some ⟨"MD2 with RSA", initTime⟩
  | .MD5WithRSA => some ⟨"MD5 with RSA", initTime⟩
  | .SHA1WithRSA => some ⟨"SHA1 with RSA", sunset2017⟩
  | .DSAWithSHA1 => some ⟨"DSA with SHA1", sunset2017⟩
  | .ECDSAWithSHA1 => some ⟨"ECDSA with SHA1", sunset2017⟩
  | .UnknownSigAlg => none

/-- The observable part of an x509 certificate used by checkHostHttps. -/
structure Certificate where
  NotAfter : Int
  SigAlg : SignatureAlgorithm
deriving DecidableEq, Repr

structure CheckResult where
  WarnMsg : String
  Host : String
deriving DecidableEq, Repr

def errExpiringShortly (n : Int) : String :=
  "expires in " ++ toString n ++ " hours"

def errExpiringSoon (n : Int) : String :=
  "expires in " ++ toString n ++ " days"

def errSunsetAlg (name : String) : String :=
  "expires after the sunset date for its signature algorithm \x27" ++ name ++ "\x27."

def errExpired : String := "SSLCertificate has expired"

/-- Hostname normalization performed at the top of checkHostHttps: skip empty
hosts and hosts starting with the at sentinel (result none); append the default
port 443 when the host contains no colon; when the (possibly port-appended)
host starts with the wildcard marker, replace the marker with the fixed
placeholder label and append a further ":443", exactly as the Go code does.
The Go test len(strings.Split(host, ":")) == 1 holds exactly when the host
contains no colon, which is how that condition is written here. -/
def normalizeHost (host : String) : Option String :=
  if host = "" || host.front == '@' then none
  else
    let host1 := if host.data.contains ':' then host else host ++ ":443"
    let host2 :=
      if host1.front == '*' then "abcdefzhki" ++ (host1.drop 1) ++ ":443" else host1
    some host2

/-- Expiry branch of the per-certificate loop of checkHostHttps (lines 102-109):
when timeNow.AddDate(0,0,warnDays).After(cert.NotAfter), compute
expiresIn = int64(cert.NotAfter.Sub(timeNow).Hours()) and emit the hours
message when expiresIn is at most 48, the days message (with expiresIn/24,
truncated 64-bit division) otherwise. -/
def expiryFindings (now warnDays : Int) (host : String) (cert : Certificate) :
    List CheckResult :=
  if cert.NotAfter < now + warnDays * nsPerDay then
    let expiresIn := (cert.NotAfter - now).tdiv nsPerHour
    if expiresIn ≤ 48 then [⟨errExpiringShortly expiresIn, host⟩]
    else [⟨errExpiringSoon (expiresIn.tdiv 24), host⟩]
  else []

/-- Signature-algorithm branch of the per-certificate loop of checkHostHttps
(lines 111-115): emit the sunset message when the algorithm is in the table,
the certificate is not in the last (root) position of its chain, and
cert.NotAfter.Equal(alg.sunsetsAt) || cert.NotAfter.After(alg.sunsetsAt). -/
def sunsetFindings (initTime : Int) (host : String) (chainLen certNum : Nat)
    (cert : Certificate) : List CheckResult :=
  match sunsetSigAlgs initTime cert.SigAlg with
  | some alg =>
    if certNum ≠ chainLen - 1 then
      if cert.NotAfter = alg.sunsetsAt ∨ alg.sunsetsAt < cert.NotAfter then
        [⟨errSunsetAlg alg.name, host⟩]
      else []
    else []
  | none => []

/-- Findings produced for one certificate of a verified chain: the expiry check
followed by the signature-algorithm check, in emission order. -/
def certFindings (now warnDays initTime : Int) (host : String)
    (chainLen certNum : Nat) (cert : Certificate) : List CheckResult :=
  expiryFindings now warnDays host cert ++
    sunsetFindings initTime host chainLen certNum cert

/-- Findings produced for one verified chain: the per-certificate loop of
checkHostHttps over every index of the chain. -/
def chainFindings (now warnDays initTime : Int) (host : String)
    (chain : List Certificate) : List CheckResult :=
  chain.enum.flatMap fun p =>
    certFindings now warnDays initTime host chain.length p.1 p.2

/-- Outcome of tls.Dial as observed by checkHostHttps: either an error (its
message string) or a connection state carrying the verified chains. -/
inductive DialResult where
  | fail (errMsg : String)
  | success (chains : List (List Certificate))

/-- Containment of a character list as a contiguous run of another, the
worker behind the model of strings.Contains. -/
def containsList (hay needle : List Char) : Bool :=
  if needle.isPrefixOf hay then true
  else
    match hay with
    | [] => false
    | _ :: t => containsList t needle

/-- Substring containment, modelling strings.Contains of the Go standard
library. -/
def containsSub (s pat : String) : Bool := containsList s.data pat.data

def expiredNeedle : String := "certificate has expired"

/-- The per-host inspection checkHostHttps, with the dial operation passed as a
function from the dialed address to its result. A skipped host (empty or at
sentinel) and a non-expiry handshake failure produce no findings; a handshake
failure whose message contains the expired needle produces the fixed
hard-expiry finding; a successful handshake produces the chain findings of
every verified chain. -/
def checkHostHttps (now warnDays initTime : Int) (host : String)
    (dial : String → DialResult) : List CheckResult :=
  match normalizeHost host with
  | none => []
  | some h =>
    match dial h with
    | .fail errMsg =>
      if containsSub errMsg expiredNeedle then [⟨errExpired, h⟩] else []
    | .success chains => chains.flatMap (chainFindings now warnDays initTime h)

example : normalizeHost "*.example.com" = some "abcdefzhki.example.com:443:443" := by decide

example : normalizeHost "example.com" = some "example.com:443" := by decide

example : normalizeHost "example.com:8443" = some "example.com:8443" := by decide

example : normalizeHost "@disabled.example.com" = none := by decide

example : normalizeHost "" = none := by decide

example :
    expiryFindings 0 30 "h" ⟨36000000000000, .UnknownSigAlg⟩
      = [⟨"expires in 10 hours", "h"⟩] := by decide

example :
    expiryFindings 0 30 "h" ⟨-5400000000000, .UnknownSigAlg⟩
      = [⟨"expires in -1 hours", "h"⟩] := by decide

example :
    expiryFindings 0 30 "h" ⟨360000000000000, .UnknownSigAlg⟩
      = [⟨"expires in 4 days", "h"⟩] := by decide

/-!
Aggregator model: the select loop of DDingNotify.Send reacts to two events,
an incoming CheckResult (buffered into the map msgs, keyed by WarnMsg) and a
ticker tick (flush). The Go map from message text to a slice of hosts is
modelled as an insertion-ordered association list; Go does not specify a map
iteration order, so the serialization below fixes the insertion order as one
admissible order. Delivery is an external effect: the tick event carries a
flag telling whether the HTTP POST would fail, and the model shows the flag
does not influence the resulting buffer state.
-/

/-- Buffer of the aggregator: message text to the hosts carrying it. -/
abbrev Buffer := List (String × List String)

/-- Appending a host to the bucket of a key, modelling
msgs[msg.WarnMsg] = append(msgs[msg.WarnMsg], msg.Host) on a Go map whose
absent keys read as the empty slice. -/
def bucketAdd : Buffer → String → String → Buffer
  | [], key, h => [(key, [h])]
  | (k, hs) :: rest, key, h =>
    if k = key then (k, hs ++ [h]) :: rest else (k, hs) :: bucketAdd rest key h

/-- Reading the bucket of a key, with the empty slice for an absent key,
as a Go map read does. -/
def lookupB : Buffer → String → List String
  | [], _ => []
  | (k, hs) :: rest, m => if k = m then hs else lookupB rest m

/-- Payload serialization of DDingNotify.Send: every message followed by its
hosts, joined with newlines. -/
def serializeBuffer (b : Buffer) : String :=
  String.intercalate "\n" (b.flatMap fun p => p.1 :: p.2)

/-- One event of the select loop of DDingNotify.Send: a received finding, or a
ticker tick whose flag records whether the webhook POST would fail. -/
inductive AggEvent where
  | finding (r : CheckResult)
  | tick (deliveryFails : Bool)

/-- One iteration of the select loop of DDingNotify.Send: buffering on a
finding; on a tick, doing nothing when the buffer is empty, otherwise
producing one serialized payload for delivery and resetting the buffer to
empty whatever the delivery outcome is. Returns the new buffer and the
payload handed to the webhook POST, when any. -/
def sendStep (b : Buffer) : AggEvent → Buffer × Option String
  | .finding r => (bucketAdd b r.WarnMsg r.Host, none)
  | .tick _ => if b.isEmpty then (b, none) else ([], some (serializeBuffer b))

/-- Buffer accumulated from a sequence of findings arriving within one flush
window, in arrival order, starting from the empty buffer. -/
def runBuffer (findings : List CheckResult) : Buffer :=
  findings.foldl (fun b r => (sendStep b (.finding r)).1) []

/-- Key list of a buffer. -/
def keysOf (b : Buffer) : List String := b.map Prod.fst

/-!
Provider model (provider.go). The Aliyun provider fetches pages of DNS
records for each (domain, record type) unit; each page fetch is retried up to
maxRetry times inside fetchWithRetry. The remote API is modelled as an
oracle from the attempt index to the outcome of that attempt; a unit oracle
additionally takes the page number. Records are written to the output channel
only in the success branch, which also returns the total page count computed
from the TotalCount field.
-/

def maxRetry : Nat := 3

def defaultSize : Int := 100

def dnsTypes : List String := ["A", "CNAME"]

/-- Outcome of one DescribeDomainRecords call: a transport error, or a
response with its HTTP status code, the records of the page (already in the
pushed rr.domain form) and the TotalCount field. -/
inductive FetchResult where
  | err (e : String)
  | ok (statusCode : Nat) (records : List String) (totalCount : Int)

/-- Success test of one attempt: err == nil and StatusCode == 200. -/
def isSuccess : FetchResult → Bool
  | .ok statusCode _ _ => statusCode == 200
  | .err _ => false

/-- Total page count computed in the success branch of fetchWithRetry:
TotalCount / 100, plus one when the division leaves a remainder (Go 64-bit
division and modulus truncate toward zero). -/
def pageCount (totalCount : Int) : Int :=
  let cnt := totalCount.tdiv defaultSize
  if totalCount.tmod defaultSize != 0 then cnt + 1 else cnt

/-- Result of fetchWithRetry: the records pushed to the channel, the returned
page count (-1 on exhaustion), the returned error, and the number of attempts
the loop made. -/
structure FetchOutcome where
  pushed : List String
  totalPage : Int
  fetchErr : Option String
  attempts : Nat
deriving Repr

/-- The retry loop of fetchWithRetry, from loop counter retry with the current
lastErr. On a response with err == nil and status 200 the records are pushed
and the page count returned; otherwise lastErr is set to err (nil when the
response merely had a non-200 status) and the loop continues; after maxRetry
attempts it returns -1 with lastErr. -/
def fetchGo (oracle : Nat → FetchResult) (retry : Nat) (lastErr : Option String) :
    FetchOutcome :=
  if h : retry < maxRetry then
    match oracle retry with
    | .ok statusCode records totalCount =>
      if statusCode = 200 then ⟨records, pageCount totalCount, none, retry + 1⟩
      else fetchGo oracle (retry + 1) none
    | .err e => fetchGo oracle (retry + 1) (some e)
  else ⟨[], -1, lastErr, retry⟩
termination_by maxRetry - retry
decreasing_by all_goals omega

/-- fetchWithRetry as called: the loop from retry = 0 with no last error. -/
def fetchWithRetry (oracle : Nat → FetchResult) : FetchOutcome :=
  fetchGo oracle 0 none

/-- Page numbers 2..totalPage iterated by getRecords after the first page. -/
def pageList (totalPage : Int) : List Int :=
  if totalPage < 2 then [] else (List.range (totalPage - 1).toNat).map fun i => (i : Int) + 2

/-- getRecords for one (domain, record type) unit: fetch the first page with
retry; on error or negative page count the unit is abandoned with a warning
and nothing more is contributed; otherwise the remaining pages are fetched,
each with its own retry loop. The unit oracle maps a page number to the
attempt oracle of that page. The returned list collects every record the unit
writes to the shared channel. -/
def getRecords (unitOracle : Int → Nat → FetchResult) : List String :=
  let first := fetchWithRetry (unitOracle 1)
  if first.fetchErr.isSome || first.totalPage < 0 then []
  else
    first.pushed ++
      (pageList first.totalPage).flatMap fun p => (fetchWithRetry (unitOracle p)).pushed

/-- GetAllRecords of the Aliyun provider: one independent getRecords task for
every trimmed configured domain and every record type in dnsTypes. Each entry
records the unit key and the records that unit contributes. -/
def getAllRecords (domains : List String)
    (oracle : String → String → Int → Nat → FetchResult) :
    List (String × String × List String) :=
  domains.flatMap fun d =>
    dnsTypes.map fun t => (d.trim, t, getRecords (oracle d.trim t))

/-!
Configuration model (config portion of check.go). Option maps hold arbitrary
YAML values; a value is a string or something else. ProviderConfig.Get checks
for nil and exits through log.Fatalln on an absent key, then performs the
type assertion .(string). NotifyConfig.Get performs the type assertion with
no nil check, so an absent key makes the assertion fail at run time (a Go
panic), not the fatal-log exit.
-/

/-- A value stored in a free-form config map: a string, or a non-string. -/
inductive ConfigValue where
  | str (s : String)
  | nonString
deriving DecidableEq, Repr

/-- Outcome of reading a required option: the string, an exit through
log.Fatalln, or a failed .(string) type assertion. -/
inductive GetOutcome where
  | ok (s : String)
  | fatalLog
  | assertFail
deriving DecidableEq, Repr

structure ProviderConfig where
  Addition : String → Option ConfigValue

/-- ProviderConfig.Get of check.go: log.Fatalln when the key reads as nil,
otherwise the .(string) assertion. -/
def ProviderConfig.Get (pc : ProviderConfig) (key : String) : GetOutcome :=
  match pc.Addition key with
  | none => .fatalLog
  | some (.str s) => .ok s
  | some .nonString => .assertFail

structure NotifyConfig where
  Config : String → Option ConfigValue

/-- NotifyConfig.Get of check.go: the bare .(string) assertion, with no nil
check, so an absent key fails the assertion. -/
def NotifyConfig.Get (nc : NotifyConfig) (key : String) : GetOutcome :=
  match nc.Config key with
  | none => .assertFail
  | some (.str s) => .ok s
  | some .nonString => .assertFail

/-!
Claim theorems.
-/

/-- C1: checkHostHttps normalizes the wildcard hostname "*.example.com" to
"abcdefzhki.example.com:443:443", carrying TWO ":443" suffixes — the default
port is appended first (the host has no colon) and the wildcard branch appends
":443" again — so the address handed to tls.Dial is not the single-port
address "abcdefzhki.example.com:443" that the specification states, and is in
fact not a dialable host:port address at all. The wildcard marker itself is
replaced as specified. -/
theorem C1_eval :
    normalizeHost "*.example.com" = some "abcdefzhki.example.com:443:443"
    ∧ "abcdefzhki.example.com:443:443" ≠ "abcdefzhki.example.com:443"
    ∧ containsSub "abcdefzhki.example.com:443:443" "*" = false := by
  refine ⟨by decide, by decide, by decide⟩

/-- C2 counterexample: a verified chain of length one consists of exactly the
trust-anchor (root) certificate, and chainFindings still applies the expiry
check to it, emitting an expiry Finding from the root position — the claim
says the root-position certificate never yields an expiry Finding. -/
theorem C2_counterexample :
    chainFindings 0 30 0 "example.com:443" [⟨36000000000000, .UnknownSigAlg⟩]
      = [⟨errExpiringShortly 10, "example.com:443"⟩]
    ∧ ([(⟨36000000000000, .UnknownSigAlg⟩ : Certificate)].length - 1 = 0) := by
  refine ⟨by decide, rfl⟩

/-- C2 amended: the per-certificate inspection of checkHostHttps runs on every
certificate of every verified chain including the root position; only the
signature-algorithm check excludes the root, so at the root position the
findings are exactly the expiry findings (which may be non-empty). -/
theorem C2_amended_root (now warnDays initTime : Int) (host : String)
    (chainLen certNum : Nat) (cert : Certificate) (hroot : certNum = chainLen - 1) :
    certFindings now warnDays initTime host chainLen certNum cert
      = expiryFindings now warnDays host cert := by
  subst hroot
  cases h : sunsetSigAlgs initTime cert.SigAlg with
  | none => simp [certFindings, sunsetFindings, h]
  | some alg => simp [certFindings, sunsetFindings, h]

/-- Witness for C2_amended_root at a concrete root-position certificate that
does yield an expiry finding. -/
theorem C2_amended_root_witness :
    certFindings 0 30 0 "example.com:443" 1 0 ⟨36000000000000, .SHA1WithRSA⟩
      = expiryFindings 0 30 "example.com:443" ⟨36000000000000, .SHA1WithRSA⟩ :=
  C2_amended_root 0 30 0 "example.com:443" 1 0 ⟨36000000000000, .SHA1WithRSA⟩ rfl

/-- C3: on a ticker tick of the aggregator loop, an empty buffer produces no
delivery and leaves the buffer unchanged; a non-empty buffer produces exactly
one serialized payload and the buffer afterwards is empty, independently of
whether the delivery fails — the tick flag does not influence the outcome. -/
theorem C3_flush (deliveryFails : Bool) (b : Buffer) :
    (b = [] → sendStep b (.tick deliveryFails) = (b, none))
    ∧ (b ≠ [] →
        sendStep b (.tick deliveryFails) = ([], some (serializeBuffer b)))
    ∧ sendStep b (.tick deliveryFails) = sendStep b (.tick (!deliveryFails)) := by
  refine ⟨fun he => by simp [sendStep, he], fun hne => ?_, rfl⟩
  simp [sendStep, List.isEmpty_iff, hne]

/-- Witness for C3_flush: the empty buffer ticks to no delivery, and a
one-bucket buffer ticks to one payload with the buffer cleared even when the
delivery fails. -/
theorem C3_flush_witness :
    sendStep ([] : Buffer) (.tick true) = ([], none)
    ∧ sendStep [("expires in 10 days", ["a.example.com:443"])] (.tick true)
        = ([], some (serializeBuffer [("expires in 10 days", ["a.example.com:443"])])) :=
  ⟨(C3_flush true []).1 rfl,
   ((C3_flush true [("expires in 10 days", ["a.example.com:443"])]).2).1 (by simp)⟩

/-- C8 counterexample: reading the required option "url" from a notifier
configuration that lacks the key does not take the fatal-log path; it fails
the unchecked .(string) type assertion (a run-time panic), so the claim that
every absent required option exits through the fatal-log path is false. -/
theorem C8_counterexample :
    NotifyConfig.Get ⟨fun _ => none⟩ "url" = GetOutcome.assertFail
    ∧ GetOutcome.assertFail ≠ GetOutcome.fatalLog := by
  refine ⟨rfl, by decide⟩

/-- C8 amended: a provider option lookup on an absent key exits through the
fatal-log path, while a notifier option lookup on an absent key crashes
through a failed .(string) type assertion — still a crash at construction
time, but a panic rather than the fatal-log exit. -/
theorem C8_amended (pc : ProviderConfig) (nc : NotifyConfig) (key : String)
    (hp : pc.Addition key = none) (hn : nc.Config key = none) :
    ProviderConfig.Get pc key = GetOutcome.fatalLog
    ∧ NotifyConfig.Get nc key = GetOutcome.assertFail := by
  refine ⟨?_, ?_⟩
  · simp [ProviderConfig.Get, hp]
  · simp [NotifyConfig.Get, hn]

/-- Witness for C8_amended on empty provider and notifier option maps. -/
theorem C8_amended_witness :
    ProviderConfig.Get ⟨fun _ => none⟩ "keyId" = GetOutcome.fatalLog
    ∧ NotifyConfig.Get ⟨fun _ => none⟩ "url" = GetOutcome.assertFail :=
  C8_amended ⟨fun _ => none⟩ ⟨fun _ => none⟩ "keyId" rfl rfl

/-- C4 counterexample: for a certificate 90 minutes past its expiry (well
inside the warn window) the code emits "expires in -1 hours" — int64()
truncation toward zero of -1.5 — while the claim prescribes
N = floor(hoursRemaining) = -2, a different finding text. -/
theorem C4_counterexample :
    expiryFindings 0 30 "example.com:443" ⟨-5400000000000, .UnknownSigAlg⟩
      = [⟨errExpiringShortly (-1), "example.com:443"⟩]
    ∧ Int.fdiv (-5400000000000 - 0) nsPerHour = -2
    ∧ errExpiringShortly (-1) ≠ errExpiringShortly (-2) := by
  refine ⟨by decide, by decide, by decide⟩

/-- C4 amended: for every certificate inside the warn window exactly one
expiry finding is emitted; with hrs the hours remaining truncated toward zero
(the Go int64 conversion), the finding is "expires in hrs hours" when
hrs ≤ 48 and otherwise "expires in hrs/24 days" with truncating division.
For a certificate that has not yet expired the truncation agrees with the
floor the claim uses, so the deviation from the claim is confined to
already-expired certificates with a fractional hour count. -/
theorem C4_amended (now warnDays : Int) (host : String) (cert : Certificate)
    (hwin : cert.NotAfter < now + warnDays * nsPerDay) :
    ((cert.NotAfter - now).tdiv nsPerHour ≤ 48 →
      expiryFindings now warnDays host cert
        = [⟨errExpiringShortly ((cert.NotAfter - now).tdiv nsPerHour), host⟩])
    ∧ (48 < (cert.NotAfter - now).tdiv nsPerHour →
      expiryFindings now warnDays host cert
        = [⟨errExpiringSoon (((cert.NotAfter - now).tdiv nsPerHour).tdiv 24), host⟩])
    ∧ (expiryFindings now warnDays host cert).length = 1
    ∧ (0 ≤ cert.NotAfter - now →
      (cert.NotAfter - now).tdiv nsPerHour = (cert.NotAfter - now).fdiv nsPerHour) := by
  refine ⟨fun hle => by simp [expiryFindings, hwin, hle], fun hgt => ?_, ?_, fun hpos => ?_⟩
  · have hnle : ¬ (cert.NotAfter - now).tdiv nsPerHour ≤ 48 := by omega
    simp [expiryFindings, hwin, hnle]
  · by_cases hle : (cert.NotAfter - now).tdiv nsPerHour ≤ 48 <;>
      simp [expiryFindings, hwin, hle]
  · have h1 : (cert.NotAfter - now).tdiv nsPerHour = (cert.NotAfter - now) / nsPerHour :=
      Int.tdiv_eq_ediv hpos (by norm_num [nsPerHour])
    have h2 : (cert.NotAfter - now).fdiv nsPerHour = (cert.NotAfter - now) / nsPerHour :=
      Int.fdiv_eq_ediv _ (by norm_num [nsPerHour])
    rw [h1, h2]

/-- Witness for C4_amended: a certificate 100 hours from expiry inside a
30-day window takes the days branch with 100 / 24 = 4. -/
theorem C4_amended_witness :
    expiryFindings 0 30 "example.com:443" ⟨360000000000000, .UnknownSigAlg⟩
      = [⟨errExpiringSoon 4, "example.com:443"⟩] :=
  ((C4_amended 0 30 "example.com:443" ⟨360000000000000, .UnknownSigAlg⟩
    (by decide)).2.1 (by decide))

/-- C5: when the TLS handshake for a (normalized) host fails, checkHostHttps
emits the single fixed hard-expiry finding exactly when the error message
contains "certificate has expired", and emits no finding at all on any other
handshake error. -/
theorem C5_handshake (now warnDays initTime : Int) (host h errMsg : String)
    (hn : normalizeHost host = some h) :
    (containsSub errMsg expiredNeedle = true →
      checkHostHttps now warnDays initTime host (fun _ => .fail errMsg)
        = [⟨errExpired, h⟩])
    ∧ (containsSub errMsg expiredNeedle = false →
      checkHostHttps now warnDays initTime host (fun _ => .fail errMsg) = []) := by
  constructor <;> intro hc <;> simp [checkHostHttps, hn, hc]

/-- Witness for C5_handshake: the real x509 expiry message yields the fixed
hard-expiry finding, and a DNS failure message yields no finding. -/
theorem C5_handshake_witness :
    checkHostHttps 0 30 0 "example.com"
      (fun _ => .fail "x509: certificate has expired or is not yet valid")
      = [⟨errExpired, "example.com:443"⟩]
    ∧ checkHostHttps 0 30 0 "example.com"
      (fun _ => .fail "dial tcp: lookup example.com: no such host") = [] :=
  ⟨(C5_handshake 0 30 0 "example.com" "example.com:443"
      "x509: certificate has expired or is not yet valid" (by decide)).1 (by decide),
   (C5_handshake 0 30 0 "example.com" "example.com:443"
      "dial tcp: lookup example.com: no such host" (by decide)).2 (by decide)⟩

/-- C10 counterexample: with a zero warn window (warnDays = 0, the value an
absent warnDays key parses to) and a certificate whose NotAfter equals the
current instant, the strict After comparison fails and no expiry finding is
emitted at all, although the claim promises an "expires in N hours" finding
for every chain certificate with NotAfter at or before now. -/
theorem C10_counterexample :
    ((⟨0, .UnknownSigAlg⟩ : Certificate).NotAfter ≤ (0 : Int))
    ∧ expiryFindings 0 0 "example.com:443" ⟨0, .UnknownSigAlg⟩ = [] := by
  refine ⟨by decide, by decide⟩

/-- C10 amended: provided the warn window is at least one day (warnDays ≥ 1),
every chain certificate already at or past expiry is reported through the
48-hours branch: exactly the one finding "expires in N hours" with N the
truncated (toward zero) hour count, which is never positive — and never
through the dedicated hard-expiry message. -/
theorem C10_amended (now warnDays : Int) (host : String) (cert : Certificate)
    (hwd : 1 ≤ warnDays) (hexp : cert.NotAfter ≤ now) :
    (cert.NotAfter - now).tdiv nsPerHour ≤ 0
    ∧ expiryFindings now warnDays host cert
        = [⟨errExpiringShortly ((cert.NotAfter - now).tdiv nsPerHour), host⟩] := by
  have hday : (0 : Int) < nsPerDay := by norm_num [nsPerDay, nsPerHour]
  have hwin : cert.NotAfter < now + warnDays * nsPerDay := by nlinarith
  have htd : (cert.NotAfter - now).tdiv nsPerHour ≤ 0 := by
    have hrev : cert.NotAfter - now = -(now - cert.NotAfter) := by ring
    have hnn : 0 ≤ (now - cert.NotAfter).tdiv nsPerHour :=
      Int.tdiv_nonneg (by omega) (by norm_num [nsPerHour])
    rw [hrev, Int.neg_tdiv]
    omega
  refine ⟨htd, ?_⟩
  have hle : (cert.NotAfter - now).tdiv nsPerHour ≤ 48 := by omega
  simp [expiryFindings, hwin, hle]

/-- Witness for C10_amended: a certificate one hour past expiry with a one-day
window yields "expires in -1 hours". -/
theorem C10_amended_witness :
    expiryFindings 0 1 "example.com:443" ⟨-3600000000000, .UnknownSigAlg⟩
      = [⟨errExpiringShortly (-1), "example.com:443"⟩] :=
  (C10_amended 0 1 "example.com:443" ⟨-3600000000000, .UnknownSigAlg⟩
    (by decide) (by decide)).2

/-- C6: the findings of one certificate decompose into the expiry findings
followed by the signature-algorithm findings, and a sunset finding is emitted
exactly when the signature algorithm is in the policy table, the certificate
is not in the root (last) position of its chain, and NotAfter is at or after
the sunset date of the algorithm; when the conditions hold, the finding is the
single message naming the algorithm. The sunset component does not depend on
the current time or the warn window, so it is independent of any expiry
finding of the same certificate. -/
theorem C6_sunset (now warnDays initTime : Int) (host : String)
    (chainLen certNum : Nat) (cert : Certificate) :
    certFindings now warnDays initTime host chainLen certNum cert
      = expiryFindings now warnDays host cert
        ++ sunsetFindings initTime host chainLen certNum cert
    ∧ (sunsetFindings initTime host chainLen certNum cert ≠ [] ↔
        ∃ alg, sunsetSigAlgs initTime cert.SigAlg = some alg
          ∧ certNum ≠ chainLen - 1 ∧ alg.sunsetsAt ≤ cert.NotAfter)
    ∧ (∀ alg, sunsetSigAlgs initTime cert.SigAlg = some alg →
        certNum ≠ chainLen - 1 → alg.sunsetsAt ≤ cert.NotAfter →
        sunsetFindings initTime host chainLen certNum cert
          = [⟨errSunsetAlg alg.name, host⟩]) := by
  refine ⟨rfl, ?_, ?_⟩
  · cases h : sunsetSigAlgs initTime cert.SigAlg with
    | none => simp [sunsetFindings, h]
    | some alg =>
      constructor
      · intro hne
        by_cases hr : certNum = chainLen - 1
        · exact absurd (by simp [sunsetFindings, h, hr]) hne
        · by_cases hd : cert.NotAfter = alg.sunsetsAt ∨ alg.sunsetsAt < cert.NotAfter
          · refine ⟨alg, rfl, hr, ?_⟩
            rcases hd with hd | hd <;> omega
          · exact absurd (by simp [sunsetFindings, h, hr, hd]) hne
      · rintro ⟨alg2, halg2, hr, hge⟩
        obtain rfl := Option.some.inj halg2
        have hd : cert.NotAfter = alg.sunsetsAt ∨ alg.sunsetsAt < cert.NotAfter := by
          omega
        simp [sunsetFindings, h, hr, hd]
  · intro alg halg hr hge
    have hd : cert.NotAfter = alg.sunsetsAt ∨ alg.sunsetsAt < cert.NotAfter := by omega
    simp [sunsetFindings, halg, hr, hd]

/-- Witness for C6_sunset: a non-root SHA1-with-RSA certificate expiring at
the sunset date yields exactly the sunset finding naming SHA1. -/
theorem C6_sunset_witness :
    sunsetFindings 0 "example.com:443" 2 0 ⟨sunset2017, .SHA1WithRSA⟩
      = [⟨errSunsetAlg "SHA1 with RSA", "example.com:443"⟩] :=
  (C6_sunset 0 30 0 "example.com:443" 2 0 ⟨sunset2017, .SHA1WithRSA⟩).2.2
    ⟨"SHA1 with RSA", sunset2017⟩ rfl (by decide) (by decide)

/-- Reading a bucket after one insertion: the inserted host lands at the end
of the bucket of its own key and every other bucket is unchanged. -/
theorem lookupB_bucketAdd (b : Buffer) (key h m : String) :
    lookupB (bucketAdd b key h) m
      = if key = m then lookupB b m ++ [h] else lookupB b m := by
  induction b with
  | nil =>
    by_cases hkm : key = m <;> simp [bucketAdd, lookupB, hkm]
  | cons p rest ih =>
    obtain ⟨k, hs⟩ := p
    by_cases hk : k = key
    · subst hk
      by_cases hm : k = m <;> simp [bucketAdd, lookupB, hm]
    · by_cases hm : k = m
      · subst hm
        have hkey : key ≠ k := fun hh => hk hh.symm
        simp [bucketAdd, lookupB, hk, hkey]
      · simp [bucketAdd, lookupB, hk, hm, ih]

/-- Folding the finding half of the aggregator loop over any starting buffer:
the bucket of a message collects the hosts of exactly the findings carrying
that message, appended in arrival order. -/
theorem lookupB_foldl (fs : List CheckResult) : ∀ (b : Buffer) (m : String),
    lookupB (fs.foldl (fun b r => (sendStep b (.finding r)).1) b) m
      = lookupB b m ++ (fs.filter (fun r => r.WarnMsg == m)).map CheckResult.Host := by
  induction fs with
  | nil => intro b m; simp
  | cons r fs ih =>
    intro b m
    simp only [List.foldl_cons, List.filter_cons]
    rw [ih, show (sendStep b (.finding r)).1 = bucketAdd b r.WarnMsg r.Host from rfl,
      lookupB_bucketAdd]
    by_cases hm : r.WarnMsg = m <;> simp [hm]

/-- Key list after one insertion: an already-present key leaves the keys
unchanged, a new key is appended once at the end. -/
theorem keysOf_bucketAdd (b : Buffer) (key h : String) :
    keysOf (bucketAdd b key h)
      = if key ∈ keysOf b then keysOf b else keysOf b ++ [key] := by
  induction b with
  | nil => simp [bucketAdd, keysOf]
  | cons p rest ih =>
    obtain ⟨k, hs⟩ := p
    by_cases hk : k = key
    · subst hk; simp [bucketAdd, keysOf]
    · have hne : ¬ key = k := fun hh => hk hh.symm
      simp only [bucketAdd, if_neg hk, keysOf, List.map_cons]
      rw [show List.map Prod.fst (bucketAdd rest key h) = keysOf (bucketAdd rest key h)
        from rfl, ih]
      simp only [keysOf]
      by_cases hmem : key ∈ List.map Prod.fst rest
      · rw [if_pos hmem, if_pos (List.mem_cons_of_mem k hmem)]
      · rw [if_neg hmem, if_neg (by simp [List.mem_cons, hne, hmem])]
        rfl

/-- Folding findings into a buffer with distinct bucket keys keeps the bucket
keys distinct. -/
theorem keys_nodup_foldl (fs : List CheckResult) : ∀ (b : Buffer),
    (keysOf b).Nodup →
    (keysOf (fs.foldl (fun b r => (sendStep b (.finding r)).1) b)).Nodup := by
  induction fs with
  | nil => intro b hb; simpa using hb
  | cons r fs ih =>
    intro b hb
    simp only [List.foldl_cons]
    apply ih
    rw [show (sendStep b (.finding r)).1 = bucketAdd b r.WarnMsg r.Host from rfl,
      keysOf_bucketAdd]
    split
    · exact hb
    · rename_i hmem
      simp only [List.nodup_append, List.nodup_singleton]
      refine ⟨hb, by simp, ?_⟩
      intro a ha hak
      rw [List.mem_singleton] at hak
      subst hak
      exact hmem ha

/-- C9: the buffer accumulated from the findings of one flush window maps each
distinct warning text to the hosts of exactly the findings carrying that text,
in arrival order, and no warning text owns more than one bucket. -/
theorem C9_buckets (findings : List CheckResult) (m : String) :
    lookupB (runBuffer findings) m
      = (findings.filter (fun r => r.WarnMsg == m)).map CheckResult.Host
    ∧ (keysOf (runBuffer findings)).Nodup := by
  refine ⟨?_, keys_nodup_foldl findings [] (by simp [keysOf])⟩
  rw [runBuffer, lookupB_foldl]
  simp [lookupB]

/-- The retry loop never makes more than maxRetry attempts, whatever the
remote API answers. -/
theorem fetchGo_attempts_le (oracle : Nat → FetchResult) :
    ∀ (fuel retry : Nat) (lastErr : Option String), maxRetry = retry + fuel →
      (fetchGo oracle retry lastErr).attempts ≤ maxRetry := by
  intro fuel
  induction fuel with
  | zero =>
    intro retry lastErr hf
    unfold fetchGo
    rw [dif_neg (by omega)]
    dsimp only
    omega
  | succ n ih =>
    intro retry lastErr hf
    unfold fetchGo
    rw [dif_pos (by omega : retry < maxRetry)]
    cases horacle : oracle retry with
    | err e => exact ih (retry + 1) (some e) (by omega)
    | ok statusCode records totalCount =>
      dsimp only
      by_cases hs : statusCode = 200
      · rw [if_pos hs]; dsimp only; omega
      · rw [if_neg hs]; exact ih (retry + 1) none (by omega)

/-- The retry loop stops at the first successful attempt: when attempt k is
the first success, exactly k + 1 attempts are made. -/
theorem fetchGo_first_success (oracle : Nat → FetchResult) :
    ∀ (fuel retry : Nat) (lastErr : Option String) (k : Nat),
      maxRetry = retry + fuel → retry ≤ k → k < maxRetry →
      isSuccess (oracle k) = true →
      (∀ j, retry ≤ j → j < k → isSuccess (oracle j) = false) →
      (fetchGo oracle retry lastErr).attempts = k + 1 := by
  intro fuel
  induction fuel with
  | zero => intro retry lastErr k hf hrk hk hs hfail; omega
  | succ n ih =>
    intro retry lastErr k hf hrk hk hs hfail
    unfold fetchGo
    rw [dif_pos (by omega : retry < maxRetry)]
    rcases Nat.eq_or_lt_of_le hrk with heq | hlt2
    · subst heq
      cases horacle : oracle retry with
      | err e => rw [horacle] at hs; simp [isSuccess] at hs
      | ok statusCode records totalCount =>
        rw [horacle] at hs
        simp only [isSuccess, beq_iff_eq] at hs
        dsimp only
        rw [if_pos hs]
    · have hfr : isSuccess (oracle retry) = false := hfail retry le_rfl hlt2
      cases horacle : oracle retry with
      | err e =>
        exact ih (retry + 1) (some e) k (by omega) (by omega) hk hs
          (fun j h1 h2 => hfail j (by omega) h2)
      | ok statusCode records totalCount =>
        rw [horacle] at hfr
        simp only [isSuccess, beq_eq_false_iff_ne, ne_eq] at hfr
        dsimp only
        rw [if_neg hfr]
        exact ih (retry + 1) none k (by omega) (by omega) hk hs
          (fun j h1 h2 => hfail j (by omega) h2)

/-- When every attempt fails, the loop returns page count -1 and pushes no
record to the channel. -/
theorem fetchGo_all_fail (oracle : Nat → FetchResult) :
    ∀ (fuel retry : Nat) (lastErr : Option String), maxRetry = retry + fuel →
      (∀ j, j < maxRetry → isSuccess (oracle j) = false) →
      (fetchGo oracle retry lastErr).totalPage = -1
        ∧ (fetchGo oracle retry lastErr).pushed = [] := by
  intro fuel
  induction fuel with
  | zero =>
    intro retry lastErr hf hfail
    unfold fetchGo
    rw [dif_neg (by omega)]
    exact ⟨rfl, rfl⟩
  | succ n ih =>
    intro retry lastErr hf hfail
    unfold fetchGo
    rw [dif_pos (by omega : retry < maxRetry)]
    have hfr : isSuccess (oracle retry) = false := hfail retry (by omega)
    cases horacle : oracle retry with
    | err e => exact ih (retry + 1) (some e) (by omega) hfail
    | ok statusCode records totalCount =>
      rw [horacle] at hfr
      simp only [isSuccess, beq_eq_false_iff_ne, ne_eq] at hfr
      dsimp only
      rw [if_neg hfr]
      exact ih (retry + 1) none (by omega) hfail

/-- C7: every page fetch of the Aliyun provider makes at most maxRetry = 3
attempts and stops at the first success; a unit whose first page fails on all
three attempts contributes no hostname at all; every (domain, record type)
unit appears in the provider output with records computed from its own page
oracle only, so a unit failure leaves every other unit unchanged. -/
theorem C7_retry :
    (∀ oracle : Nat → FetchResult, (fetchWithRetry oracle).attempts ≤ maxRetry)
    ∧ (∀ (oracle : Nat → FetchResult) (k : Nat), k < maxRetry →
        isSuccess (oracle k) = true →
        (∀ j, j < k → isSuccess (oracle j) = false) →
        (fetchWithRetry oracle).attempts = k + 1)
    ∧ (∀ unitOracle : Int → Nat → FetchResult,
        (∀ j, j < maxRetry → isSuccess (unitOracle 1 j) = false) →
        getRecords unitOracle = [])
    ∧ (∀ (domains : List String) (o : String → String → Int → Nat → FetchResult)
        (d t : String), d ∈ domains → t ∈ dnsTypes →
        (d.trim, t, getRecords (o d.trim t)) ∈ getAllRecords domains o)
    ∧ (∀ (o₁ o₂ : String → String → Int → Nat → FetchResult) (d t : String),
        o₁ d t = o₂ d t → getRecords (o₁ d t) = getRecords (o₂ d t)) := by
  refine ⟨?_, ?_, ?_, ?_, ?_⟩
  · intro oracle
    exact fetchGo_attempts_le oracle maxRetry 0 none (by omega)
  · intro oracle k hk hs hfail
    exact fetchGo_first_success oracle maxRetry 0 none k (by omega) (by omega) hk hs
      (fun j h1 h2 => hfail j h2)
  · intro unitOracle hfail
    have h1 := (fetchGo_all_fail (unitOracle 1) maxRetry 0 none (by omega) hfail).1
    unfold getRecords fetchWithRetry
    simp [h1]
  · intro domains o d t hd ht
    simp only [getAllRecords, List.mem_flatMap]
    exact ⟨d, hd, by simp only [List.mem_map]; exact ⟨t, ht, rfl⟩⟩
  · intro o₁ o₂ d t hsame
    rw [hsame]

/-- Witness for C7_retry: with a page-1 oracle failing on attempt 0 and
succeeding on attempt 1, exactly two attempts are made; with a unit oracle
failing every attempt, the unit contributes no hostname. -/
theorem C7_retry_witness :
    (fetchWithRetry
      (fun k => if k = 1 then .ok 200 ["r1.example.com"] 1 else .err "timeout")).attempts = 2
    ∧ getRecords (fun _ _ => .err "timeout") = [] :=
  ⟨C7_retry.2.1 (fun k => if k = 1 then .ok 200 ["r1.example.com"] 1 else .err "timeout")
      1 (by decide) (by decide)
      (fun j hj => by
        have hj0 : j = 0 := by omega
        subst hj0
        decide),
   C7_retry.2.2.1 (fun _ _ => .err "timeout") (fun j hj => rfl)⟩

end CheckCerts
